import Mathlib

/-!
Verification of the windowed sequence-dataset adapter and training-step loss
of `src/models/lstm.py` (attentive-neural-processes repository).

The adapter `SequenceDfDataSet` maps a flat sample index to a contiguous
row-slice of a time-indexed table, producing an input window `x_rows`
(with the label columns of the target-horizon portion masked to zero and
the timestamp column rewritten to fractional days since the window start)
and a one-step-ahead shifted target window `y_rows`.

Embedding conventions:
* a pandas DataFrame row is a `Row`: its timestamp column `tstp` (seconds,
  as a rational), its label-column cells `labels`, and the remaining
  feature cells `feats`;
* a DataFrame is a `List Row`; `df.iloc[i:k]` is `pySlice` (Python slices
  clip at the ends and never fail);
* a failed `assert` is `PyErr.assertionError`; `.iloc[0]` on an empty
  frame is `PyErr.indexError`; fallible code returns `Except PyErr`;
* numeric cells are rationals (the claims under check are structural:
  which cells are zeroed, which rows are selected, which timesteps
  contribute to the loss).
-/

set_option autoImplicit false

deriving instance DecidableEq for Except

/-- One row of the source table: timestamp (in seconds), label-column
cells, and the remaining feature cells. -/
structure Row where
  tstp : ℚ
  labels : List ℚ
  feats : List ℚ
  deriving Repr, DecidableEq

/-- The hyperparameter fields read by the adapter (`hparams.window_length`,
`hparams.target_length` in the source). -/
structure Hparams where
  window_length : ℕ
  target_length : ℕ
  deriving Repr, DecidableEq

/-- The dataset adapter: it retains a reference to the table `data` and the
hyperparameters (`SequenceDfDataSet.__init__`). -/
structure SequenceDfDataSet where
  data : List Row
  hparams : Hparams
  deriving Repr, DecidableEq

/-- Python slice `l[i:k]` for `0 ≤ i ≤ k`: clips at the list's end,
never fails. -/
def pySlice {α : Type} (l : List α) (i k : ℕ) : List α :=
  (l.drop i).take (k - i)

/-- Effect of the masking assignment on one row of the target-horizon
region: every label-column cell is set to `0`
(`x_rows.loc[..., self.label_names] = 0`). -/
def maskRow (r : Row) : Row :=
  { r with labels := r.labels.map fun _ => 0 }

/-- `x_rows.loc[x_rows.index[wl:], label_names] = 0`: rows at local offset
`≥ wl` get their label cells zeroed; earlier rows are untouched. -/
def maskFrom (wl : ℕ) (rows : List Row) : List Row :=
  rows.take wl ++ (rows.drop wl).map maskRow

/-- `(x_rows.loc[x_rows.index[wl:], label_names] == 0).all().all()`:
every label cell of every row at local offset `≥ wl` equals zero. -/
def labelsZeroFrom (wl : ℕ) (rows : List Row) : Bool :=
  (rows.drop wl).all fun r => r.labels.all fun l => l == 0

/-- The two ways the adapter's access path fails: a failed `assert`
statement, or indexing `.iloc[0]` into an empty frame. -/
inductive PyErr where
  | assertionError
  | indexError
  deriving Repr, DecidableEq

/-- `SequenceDfDataSet.__len__`:
`len(self.data) - window_length - target_length - 1`, as the plain
integer the Python method returns (no clamping). -/
def SequenceDfDataSet.len (self : SequenceDfDataSet) : ℤ :=
  (self.data.length : ℤ) - self.hparams.window_length
    - self.hparams.target_length - 1

/-- `SequenceDfDataSet.iloc(idx)`, line by line:
`k = idx + wl + tl`; `j = k - tl`; `i = j - wl`;
`assert i >= 0`; `assert idx <= len(self.data)`;
`x_rows = self.data.iloc[i:k].copy()`;
mask label columns from offset `wl`; assert the masked region is nonempty;
assert its label cells are zero; `y_rows = self.data[label_names].iloc[i+1:k+1].copy()`;
rewrite `tstp` to fractional days since the window start
(`.iloc[0]` on an empty column raises IndexError);
return `(x_rows, y_rows)`. -/
def SequenceDfDataSet.iloc (self : SequenceDfDataSet) (idx : ℤ) :
    Except PyErr (List Row × List (List ℚ)) :=
  let wl := self.hparams.window_length
  let tl := self.hparams.target_length
  let k : ℤ := idx + wl + tl
  let j : ℤ := k - tl
  let i : ℤ := j - wl
  if i < 0 then .error .assertionError
  else if ¬ idx ≤ (self.data.length : ℤ) then .error .assertionError
  else
    let x_rows := pySlice self.data i.toNat k.toNat
    let x_rows := maskFrom wl x_rows
    if (x_rows.drop wl).length = 0 then .error .assertionError
    else if labelsZeroFrom wl x_rows then
      let y_rows := (pySlice self.data (i + 1).toNat (k + 1).toNat).map Row.labels
      match x_rows with
      | [] => .error .indexError
      | r0 :: _ =>
        let x_rows := x_rows.map fun r =>
          { r with tstp := (r.tstp - r0.tstp) / 86400 }
        .ok (x_rows, y_rows)
    else .error .assertionError

/-!
Heap-level embedding, used for the frame property (no mutation of the
shared source table): a `Store` is the heap of live DataFrames, a
reference is an index into it. `.copy()` allocates a fresh frame; the
in-place statements (`x_rows.loc[...] = 0`, `x_rows["tstp"] = ...`)
write through the `x_rows` reference.
-/

/-- The heap of live DataFrames. -/
def Store : Type := List (List Row)

/-- Allocate a fresh DataFrame (what `.copy()` does) and return its
reference. -/
def alloc (s : Store) (v : List Row) : Store × ℕ :=
  (List.append s [v], List.length s)

/-- Dereference a DataFrame. -/
def readRef (s : Store) (r : ℕ) : List Row :=
  List.getD s r []

/-- Overwrite the DataFrame behind a reference (an in-place pandas
assignment). -/
def writeRef (s : Store) (r : ℕ) (v : List Row) : Store :=
  List.set s r v

/-- `SequenceDfDataSet.iloc(idx)` at the heap level: the source table
lives behind reference `t` in store `s`; every statement of the method
body is replayed, with `.copy()` as `alloc` and the two in-place
assignments as `writeRef` through the `x_rows` reference. Returns the
final store together with the method's result. -/
def ilocStore (hp : Hparams) (s : Store) (t : ℕ) (idx : ℤ) :
    Store × Except PyErr (List Row × List (List ℚ)) :=
  let data := readRef s t
  let wl := hp.window_length
  let tl := hp.target_length
  let k : ℤ := idx + wl + tl
  let j : ℤ := k - tl
  let i : ℤ := j - wl
  if i < 0 then (s, .error .assertionError)
  else if ¬ idx ≤ (data.length : ℤ) then (s, .error .assertionError)
  else
    let a := alloc s (pySlice data i.toNat k.toNat)
    let s1 := a.1
    let xr := a.2
    let s2 := writeRef s1 xr (maskFrom wl (readRef s1 xr))
    let xv := readRef s2 xr
    if (xv.drop wl).length = 0 then (s2, .error .assertionError)
    else if labelsZeroFrom wl xv then
      let y_rows := (pySlice data (i + 1).toNat (k + 1).toNat).map Row.labels
      match xv with
      | [] => (s2, .error .indexError)
      | r0 :: _ =>
        let s3 := writeRef s2 xr (xv.map fun r =>
          { r with tstp := (r.tstp - r0.tstp) / 86400 })
        (s3, .ok (readRef s3 xr, y_rows))
    else (s2, .error .assertionError)

/-!
Training controller: `LSTM_PL.training_step` / `LSTM_PL.validation_step`.
The forward pass is performed by the external recurrent network
(an excluded collaborator), so the steps are modelled as functions of the
model output `y_hat` and the target batch `y`, both of shape
(batch, time): `y = y[:, window_length:]`, `y_hat = y_hat[:, window_length:]`,
`loss = F.mse_loss(y_hat, y)`.
-/

/-- `F.mse_loss` on two (batch, time) tensors: the mean of the
elementwise squared differences. -/
def mse_loss (y_hat y : List (List ℚ)) : ℚ :=
  let sq := ((y_hat.zip y).map fun p =>
    (p.1.zip p.2).map fun q => (q.1 - q.2) ^ 2).flatten
  sq.sum / sq.length

/-- `LSTM_PL.training_step` after the forward pass: slice off the first
`window_length` timesteps of target and prediction, then mean-squared
error over the rest. -/
def LSTM_PL.training_step (window_length : ℕ) (y_hat y : List (List ℚ)) : ℚ :=
  mse_loss (y_hat.map (List.drop window_length)) (y.map (List.drop window_length))

/-- `LSTM_PL.validation_step` after the forward pass: identical loss
computation to the training step (only the logging key differs). -/
def LSTM_PL.validation_step (window_length : ℕ) (y_hat y : List (List ℚ)) : ℚ :=
  mse_loss (y_hat.map (List.drop window_length)) (y.map (List.drop window_length))

/-- The 5-row example table of the spec's concrete scenario: labels
`[10,20,30,40,50]`, timestamps one day (86400 s) apart, with
`window_length = 2`, `target_length = 1`. -/
def ds5 : SequenceDfDataSet :=
  { data :=
      [ { tstp := 0, labels := [10], feats := [] }
      , { tstp := 86400, labels := [20], feats := [] }
      , { tstp := 2 * 86400, labels := [30], feats := [] }
      , { tstp := 3 * 86400, labels := [40], feats := [] }
      , { tstp := 4 * 86400, labels := [50], feats := [] } ]
  , hparams := { window_length := 2, target_length := 1 } }

/-- The `x_rows` that `ds5.iloc 0` returns: rows 0..2, row 2's label
masked to zero, timestamps rewritten to fractional days 0, 1, 2. -/
def x5 : List Row :=
  [ { tstp := 0, labels := [10], feats := [] }
  , { tstp := 1, labels := [20], feats := [] }
  , { tstp := 2, labels := [0], feats := [] } ]

/-- The `y_rows` that `ds5.iloc 0` returns: labels of rows 1..3. -/
def y5 : List (List ℚ) := [[20], [30], [40]]

/-- An empty table with `window_length = target_length = 0`: the
smallest configuration on which `__len__` goes negative. -/
def dsEmpty : SequenceDfDataSet :=
  { data := [], hparams := { window_length := 0, target_length := 0 } }

/-- The 5-row table with `window_length = 2` and `target_length = 0`. -/
def dsT0 : SequenceDfDataSet :=
  { data := ds5.data, hparams := { window_length := 2, target_length := 0 } }



/-!
Helper lemmas about slices and masking.
-/

theorem length_pySlice {α : Type} (l : List α) (i k : ℕ) :
    (pySlice l i k).length = min (k - i) (l.length - i) := by
  simp [pySlice]

theorem getElem?_pySlice {α : Type} (l : List α) (i k o : ℕ) (h : o < k - i) :
    (pySlice l i k)[o]? = l[i + o]? := by
  simp [pySlice, List.getElem?_take, h, List.getElem?_drop]

theorem length_maskFrom (wl : ℕ) (rows : List Row) :
    (maskFrom wl rows).length = rows.length := by
  simp [maskFrom]
  omega

theorem drop_maskFrom (wl : ℕ) (rows : List Row) :
    (maskFrom wl rows).drop wl = (rows.drop wl).map maskRow := by
  rcases le_or_lt wl rows.length with hle | hlt
  · have htk : (rows.take wl).length = wl := by simp [hle]
    rw [maskFrom, List.drop_append_of_le_length (le_of_eq htk.symm),
      List.drop_eq_nil_of_le (le_of_eq htk), List.nil_append]
  · have h1 : rows.drop wl = [] := List.drop_eq_nil_of_le (le_of_lt hlt)
    have h2 : rows.take wl = rows := List.take_of_length_le (le_of_lt hlt)
    simp [maskFrom, h1, h2, List.drop_eq_nil_of_le (le_of_lt hlt)]

theorem getElem?_maskFrom_ge (wl o : ℕ) (rows : List Row) (h : wl ≤ o) :
    (maskFrom wl rows)[o]? = (rows[o]?).map maskRow := by
  have := drop_maskFrom wl rows
  have h1 : (maskFrom wl rows)[o]? = ((maskFrom wl rows).drop wl)[o - wl]? := by
    rw [List.getElem?_drop]
    congr 1
    omega
  rw [h1, this, List.getElem?_map, List.getElem?_drop]
  congr 2
  omega

theorem getElem?_maskFrom_lt (wl o : ℕ) (rows : List Row) (h : o < wl) :
    (maskFrom wl rows)[o]? = rows[o]? := by
  rw [maskFrom, List.getElem?_append]
  rcases lt_or_le o (rows.take wl).length with h2 | h2
  · rw [if_pos h2, List.getElem?_take, if_pos h]
  · rw [if_neg (not_lt.mpr h2)]
    have hlen : rows.length ≤ o := by
      simp [List.length_take] at h2
      omega
    have hd : rows.drop wl = [] := List.drop_eq_nil_of_le (by omega)
    rw [hd]
    simp [List.getElem?_eq_none hlen]

theorem tstp_getElem?_maskFrom (wl o : ℕ) (rows : List Row) :
    ((maskFrom wl rows)[o]?).map Row.tstp = (rows[o]?).map Row.tstp := by
  rcases lt_or_le o wl with h | h
  · rw [getElem?_maskFrom_lt wl o rows h]
  · rw [getElem?_maskFrom_ge wl o rows h]
    cases rows[o]? <;> simp [maskRow]

theorem feats_getElem?_maskFrom (wl o : ℕ) (rows : List Row) :
    ((maskFrom wl rows)[o]?).map Row.feats = (rows[o]?).map Row.feats := by
  rcases lt_or_le o wl with h | h
  · rw [getElem?_maskFrom_lt wl o rows h]
  · rw [getElem?_maskFrom_ge wl o rows h]
    cases rows[o]? <;> simp [maskRow]

theorem labelsZeroFrom_maskFrom (wl : ℕ) (rows : List Row) :
    labelsZeroFrom wl (maskFrom wl rows) = true := by
  rw [labelsZeroFrom, drop_maskFrom]
  simp only [List.all_eq_true, List.mem_map]
  rintro x ⟨r, _, rfl⟩ l hl
  obtain ⟨a, _, ha⟩ := List.mem_map.mp hl
  simp [← ha]

/-- Shape of every successful `iloc` call: both preconditions held, the
masked window is nonempty with head `r0`, `x` is the masked window with
its timestamps rewritten relative to `r0`, and `y` is the label columns
of the one-step-shifted slice. -/
theorem iloc_ok_elim {ds : SequenceDfDataSet} {idx : ℤ} {x : List Row}
    {y : List (List ℚ)} (hok : ds.iloc idx = .ok (x, y)) :
    0 ≤ idx ∧ idx ≤ (ds.data.length : ℤ) ∧
      ∃ r0 xtl, maskFrom ds.hparams.window_length
          (pySlice ds.data idx.toNat
            (idx + ds.hparams.window_length + ds.hparams.target_length).toNat)
          = r0 :: xtl ∧
        x = (r0 :: xtl).map
            (fun r => { r with tstp := (r.tstp - r0.tstp) / 86400 }) ∧
        y = (pySlice ds.data (idx + 1).toNat
            (idx + ds.hparams.window_length + ds.hparams.target_length + 1).toNat).map
            Row.labels := by
  simp only [SequenceDfDataSet.iloc] at hok
  have hi : idx + ds.hparams.window_length + ds.hparams.target_length
      - ds.hparams.target_length - ds.hparams.window_length = idx := by ring
  rw [hi] at hok
  split at hok
  · exact absurd hok (by simp)
  split at hok
  · exact absurd hok (by simp)
  split at hok
  · exact absurd hok (by simp)
  split at hok
  · split at hok
    · exact absurd hok (by simp)
    · rename_i hneg hle _ _ _ r0 xtl hcons
      simp only [Except.ok.injEq, Prod.mk.injEq] at hok
      obtain ⟨hx, hy⟩ := hok
      rw [hcons] at hx
      refine ⟨by omega, by omega, r0, xtl, hcons, hx.symm, hy.symm⟩
  · exact absurd hok (by simp)

/-- C1: for every valid index `idx` in `[0, length())`, every
label-column cell of the `x_rows` returned by `iloc(idx)` at local
offset `≥ window_length` equals zero after masking (no leakage over the
target-horizon portion of the input window). -/
theorem iloc_labels_masked_zero (ds : SequenceDfDataSet) (idx : ℤ)
    (x : List Row) (y : List (List ℚ))
    (h0 : 0 ≤ idx) (h1 : idx < ds.len) (hok : ds.iloc idx = .ok (x, y))
    (o : ℕ) (ho : ds.hparams.window_length ≤ o) (r : Row)
    (hr : x[o]? = some r) : ∀ l ∈ r.labels, l = 0 := by
  obtain ⟨-, -, r0, xtl, hcons, hx, -⟩ := iloc_ok_elim hok
  rw [hx, ← hcons, List.getElem?_map, getElem?_maskFrom_ge _ _ _ ho] at hr
  cases hsl : (pySlice ds.data idx.toNat
      (idx + ds.hparams.window_length + ds.hparams.target_length).toNat)[o]? with
  | none => rw [hsl] at hr; simp at hr
  | some rsrc =>
    rw [hsl] at hr
    simp only [Option.map_some'] at hr
    obtain rfl := Option.some.inj hr
    intro l hl
    simp only [maskRow, List.mem_map] at hl
    obtain ⟨a, -, ha⟩ := hl
    exact ha.symm

/-- Witness for C1 at the concrete 5-row table: the masked row of
`ds5.iloc 0` at local offset 2 is `⟨2, [0], []⟩`, and its (only) label
cell is zero. -/
theorem iloc_labels_masked_zero_witness :
    x5[2]? = some (Row.mk 2 [0] []) ∧ (0 : ℚ) = 0 :=
  ⟨rfl, iloc_labels_masked_zero ds5 0 x5 y5 (by decide) (by decide)
    (by simp [SequenceDfDataSet.iloc, pySlice, maskFrom, maskRow,
      labelsZeroFrom, ds5, x5, y5])
    2 (by decide) (Row.mk 2 [0] []) (by rfl) 0 (by simp)⟩

/-- C2: for every valid index, the returned `y_rows` equals the label
columns of the source table at absolute rows
`[idx+1, idx+window_length+target_length+1)` — the one-step-ahead
shifted target, with `window_length + target_length` rows. -/
theorem iloc_y_rows_shifted (ds : SequenceDfDataSet) (idx : ℤ)
    (x : List Row) (y : List (List ℚ))
    (h0 : 0 ≤ idx) (h1 : idx < ds.len) (hok : ds.iloc idx = .ok (x, y)) :
    y.length = ds.hparams.window_length + ds.hparams.target_length ∧
    ∀ o : ℕ, o < ds.hparams.window_length + ds.hparams.target_length →
      y[o]? = (ds.data[idx.toNat + 1 + o]?).map Row.labels := by
  obtain ⟨-, -, r0, xtl, -, -, hy⟩ := iloc_ok_elim hok
  have hlen : idx.toNat + 1 + (ds.hparams.window_length + ds.hparams.target_length)
      ≤ ds.data.length := by
    simp only [SequenceDfDataSet.len] at h1
    omega
  have hi1 : (idx + 1).toNat = idx.toNat + 1 := by omega
  have hk1 : (idx + ds.hparams.window_length + ds.hparams.target_length + 1).toNat
      = idx.toNat + 1 + (ds.hparams.window_length + ds.hparams.target_length) := by
    omega
  constructor
  · rw [hy, List.length_map, length_pySlice, hi1, hk1]
    omega
  · intro o ho
    rw [hy, List.getElem?_map,
      getElem?_pySlice ds.data _ _ o (by rw [hi1, hk1]; omega), hi1]

/-- Witness for C2 at the concrete 5-row table: `y5` has 3 rows and its
row at offset 1 is the label of table row 2. -/
theorem iloc_y_rows_shifted_witness :
    y5.length = 2 + 1 ∧ y5[1]? = (ds5.data[0 + 1 + 1]?).map Row.labels := by
  have h := iloc_y_rows_shifted ds5 0 x5 y5 (by decide) (by decide)
    (by simp [SequenceDfDataSet.iloc, pySlice, maskFrom, maskRow,
      labelsZeroFrom, ds5, x5, y5])
  exact ⟨h.1, by simpa using h.2 1 (by decide)⟩

/-- C4: for every valid index, `iloc(idx)` returns `x_rows` spanning
exactly `window_length + target_length` contiguous table rows starting
at row `idx` (witnessed by the untouched feature columns), and `y_rows`
spanning the same count. -/
theorem iloc_span_lengths (ds : SequenceDfDataSet) (idx : ℤ)
    (x : List Row) (y : List (List ℚ))
    (h0 : 0 ≤ idx) (h1 : idx < ds.len) (hok : ds.iloc idx = .ok (x, y)) :
    x.length = ds.hparams.window_length + ds.hparams.target_length ∧
    y.length = x.length ∧
    ∀ o : ℕ, o < ds.hparams.window_length + ds.hparams.target_length →
      (x[o]?).map Row.feats = (ds.data[idx.toNat + o]?).map Row.feats := by
  obtain ⟨-, -, r0, xtl, hcons, hx, hy⟩ := iloc_ok_elim hok
  have hlen : idx.toNat + 1 + (ds.hparams.window_length + ds.hparams.target_length)
      ≤ ds.data.length := by
    simp only [SequenceDfDataSet.len] at h1
    omega
  have hk : (idx + ds.hparams.window_length + ds.hparams.target_length).toNat
      = idx.toNat + (ds.hparams.window_length + ds.hparams.target_length) := by
    omega
  have hi1 : (idx + 1).toNat = idx.toNat + 1 := by omega
  have hk1 : (idx + ds.hparams.window_length + ds.hparams.target_length + 1).toNat
      = idx.toNat + 1 + (ds.hparams.window_length + ds.hparams.target_length) := by
    omega
  have hxlen : x.length
      = ds.hparams.window_length + ds.hparams.target_length := by
    rw [hx, List.length_map, ← hcons, length_maskFrom, length_pySlice, hk]
    omega
  refine ⟨hxlen, ?_, ?_⟩
  · rw [hxlen, hy, List.length_map, length_pySlice, hi1, hk1]
    omega
  · intro o ho
    rw [hx, ← hcons, List.getElem?_map]
    have hfeat : ∀ m : Option Row,
        ((m.map fun r => { r with tstp := (r.tstp - r0.tstp) / 86400 }).map
          Row.feats) = m.map Row.feats := by
      intro m
      cases m <;> simp
    rw [hfeat, feats_getElem?_maskFrom,
      getElem?_pySlice ds.data _ _ o (by rw [hk]; omega)]

/-- Witness for C4 on the spec's concrete scenario: `length() = 1`,
`iloc 0` yields `x5` and `y5`, both of 3 rows; `y5` is the shifted
labels `[20,30,40]`, and `x5`'s row at offset 2 carries the feature
cells of table row 2. -/
theorem iloc_span_lengths_witness :
    ds5.len = 1 ∧ ds5.iloc 0 = .ok (x5, y5) ∧ x5.length = 3 ∧
      y5.length = x5.length ∧ y5 = [[20], [30], [40]] ∧
      (x5[2]?).map Row.feats = (ds5.data[0 + 2]?).map Row.feats := by
  have hok : ds5.iloc 0 = .ok (x5, y5) := by
    simp [SequenceDfDataSet.iloc, pySlice, maskFrom, maskRow,
      labelsZeroFrom, ds5, x5, y5]
  have h := iloc_span_lengths ds5 0 x5 y5 (by decide) (by decide) hok
  exact ⟨by decide, hok, h.1, h.2.1, by decide, by simpa using h.2.2 2 (by decide)⟩

/-- C7: for every valid index, the timestamp column of the returned
`x_rows` is rewritten to elapsed time since the sample's first row in
fractional days; in particular the rewritten timestamp at local offset 0
is exactly 0. -/
theorem iloc_tstp_rewritten (ds : SequenceDfDataSet) (idx : ℤ)
    (x : List Row) (y : List (List ℚ))
    (h0 : 0 ≤ idx) (h1 : idx < ds.len) (hok : ds.iloc idx = .ok (x, y)) :
    (∀ r : Row, x[0]? = some r → r.tstp = 0) ∧
    (∀ (o : ℕ) (r rd r0 : Row), x[o]? = some r →
      ds.data[idx.toNat + o]? = some rd → ds.data[idx.toNat]? = some r0 →
      r.tstp = (rd.tstp - r0.tstp) / 86400) := by
  obtain ⟨-, -, q0, xtl, hcons, hx, -⟩ := iloc_ok_elim hok
  constructor
  · intro r hr
    rw [hx] at hr
    simp only [List.map_cons, List.getElem?_cons_zero] at hr
    obtain rfl := Option.some.inj hr
    simp
  · intro o r rd r0 hr hrd hr0
    have hslen : (pySlice ds.data idx.toNat
        (idx + ds.hparams.window_length + ds.hparams.target_length).toNat).length
        = (maskFrom ds.hparams.window_length
          (pySlice ds.data idx.toNat
            (idx + ds.hparams.window_length + ds.hparams.target_length).toNat)).length :=
      (length_maskFrom _ _).symm
    have holt : o < (pySlice ds.data idx.toNat
        (idx + ds.hparams.window_length + ds.hparams.target_length).toNat).length := by
      have hlt : o < x.length := by
        by_contra hc
        push_neg at hc
        rw [List.getElem?_eq_none hc] at hr
        exact Option.noConfusion hr
      rw [hx, List.length_map, ← hcons] at hlt
      omega
    have hko : o < (idx + ds.hparams.window_length
        + ds.hparams.target_length).toNat - idx.toNat := by
      have := length_pySlice ds.data idx.toNat
        (idx + ds.hparams.window_length + ds.hparams.target_length).toNat
      omega
    have hk0 : 0 < (idx + ds.hparams.window_length
        + ds.hparams.target_length).toNat - idx.toNat := by omega
    -- the head of the masked window has the timestamp of table row idx
    have hq0 : q0.tstp = r0.tstp := by
      have h00 : ((maskFrom ds.hparams.window_length
          (pySlice ds.data idx.toNat
            (idx + ds.hparams.window_length + ds.hparams.target_length).toNat))[0]?).map
            Row.tstp = some q0.tstp := by
        rw [hcons]
        simp
      rw [tstp_getElem?_maskFrom,
        getElem?_pySlice ds.data _ _ 0 hk0, Nat.add_zero, hr0] at h00
      exact (Option.some.inj h00).symm
    -- the row of the masked window at offset o has the timestamp of rd
    rw [hx, ← hcons, List.getElem?_map] at hr
    cases hm : (maskFrom ds.hparams.window_length
        (pySlice ds.data idx.toNat
          (idx + ds.hparams.window_length + ds.hparams.target_length).toNat))[o]? with
    | none => rw [hm] at hr; simp at hr
    | some m =>
      rw [hm] at hr
      simp only [Option.map_some'] at hr
      obtain rfl := Option.some.inj hr
      have hmt : m.tstp = rd.tstp := by
        have := tstp_getElem?_maskFrom ds.hparams.window_length o
          (pySlice ds.data idx.toNat
            (idx + ds.hparams.window_length + ds.hparams.target_length).toNat)
        rw [hm, getElem?_pySlice ds.data _ _ o hko, hrd] at this
        exact Option.some.inj this
      simp [hmt, hq0]

/-- Witness for C7: in `ds5.iloc 0`, the rewritten timestamp at offset 0
is 0, and the one at offset 2 is the elapsed seconds from table row 0 to
table row 2 divided by 86400. -/
theorem iloc_tstp_rewritten_witness :
    (Row.mk 0 [10] []).tstp = 0 ∧
    (Row.mk 2 [0] []).tstp
      = ((Row.mk (2 * 86400) [30] []).tstp - (Row.mk 0 [10] []).tstp) / 86400 := by
  have h := iloc_tstp_rewritten ds5 0 x5 y5 (by decide) (by decide)
    (by simp [SequenceDfDataSet.iloc, pySlice, maskFrom, maskRow,
      labelsZeroFrom, ds5, x5, y5])
  exact ⟨h.1 (Row.mk 0 [10] []) (by rfl),
    h.2 2 (Row.mk 2 [0] []) (Row.mk (2 * 86400) [30] []) (Row.mk 0 [10] [])
      (by rfl) (by rfl) (by rfl)⟩

/-- Counterexample to C3: on an empty table `__len__` returns `-1`, not
`max 0 (total_rows - window_length - target_length - 1) = 0` — the
returned value is negative. -/
theorem len_clamped_cex :
    dsEmpty.len = -1 ∧
    dsEmpty.len ≠ max 0 ((dsEmpty.data.length : ℤ)
      - dsEmpty.hparams.window_length - dsEmpty.hparams.target_length - 1) := by
  decide

/-- C3 (amended): `__len__` returns the unclamped value
`total_rows - window_length - target_length - 1`, which is negative
exactly when `total_rows < window_length + target_length + 1`; no
`max 0` guard is applied before exposing it. -/
theorem len_unclamped (ds : SequenceDfDataSet) :
    ds.len = (ds.data.length : ℤ) - ds.hparams.window_length
        - ds.hparams.target_length - 1 ∧
    (ds.len < 0 ↔ ds.data.length
        < ds.hparams.window_length + ds.hparams.target_length + 1) := by
  refine ⟨rfl, ?_⟩
  simp only [SequenceDfDataSet.len]
  omega

/-- Counterexample to C6: with the 5-row table, `length() = 1`, so
`idx = 1` is outside the valid range `[0, 1)`; yet `iloc 1` does not
raise — it returns a full sample. -/
theorem iloc_out_of_range_ok_cex :
    ds5.len = 1 ∧
    ds5.iloc 1 = .ok
      ([Row.mk 0 [20] [], Row.mk 1 [30] [], Row.mk 2 [0] []],
        [[30], [40], [50]]) := by
  refine ⟨by decide, ?_⟩
  simp [SequenceDfDataSet.iloc, pySlice, maskFrom, maskRow, labelsZeroFrom, ds5]
  norm_num

/-- C6 (amended): `iloc(idx)` raises an assertion error exactly as the
stated precondition dictates — whenever `idx < 0` or
`idx > total_rows`; indices in `[length(), total_rows]` pass both
bounds assertions (and may even return a sample). -/
theorem iloc_error_outside_precondition (ds : SequenceDfDataSet) (idx : ℤ)
    (h : idx < 0 ∨ (ds.data.length : ℤ) < idx) :
    ds.iloc idx = .error .assertionError := by
  simp only [SequenceDfDataSet.iloc]
  have hi : idx + ds.hparams.window_length + ds.hparams.target_length
      - ds.hparams.target_length - ds.hparams.window_length = idx := by ring
  rw [hi]
  rcases h with h | h
  · rw [if_pos h]
  · rw [if_neg (by omega), if_pos (by omega)]

/-- Witness for C6 (amended) at `idx = -1`. -/
theorem iloc_error_outside_precondition_witness :
    ds5.iloc (-1) = .error .assertionError :=
  iloc_error_outside_precondition ds5 (-1) (Or.inl (by decide))

/-- C10: when `target_length = 0`, every call to `iloc` fails with an
assertion error, for every index — the access path requires a nonempty
target-horizon region. -/
theorem iloc_fails_when_target_length_zero (ds : SequenceDfDataSet)
    (htl : ds.hparams.target_length = 0) (idx : ℤ) :
    ds.iloc idx = .error .assertionError := by
  simp only [SequenceDfDataSet.iloc]
  have hi : idx + ds.hparams.window_length + ds.hparams.target_length
      - ds.hparams.target_length - ds.hparams.window_length = idx := by ring
  rw [hi]
  by_cases h0 : idx < 0
  · rw [if_pos h0]
  · rw [if_neg h0]
    by_cases h1 : idx ≤ (ds.data.length : ℤ)
    · rw [if_neg (not_not_intro h1), if_pos ?_]
      rw [drop_maskFrom, List.length_map, List.length_drop, length_pySlice]
      omega
    · rw [if_pos h1]

/-- Witness for C10: with `target_length = 0` and a 5-row table,
`__len__` still reports 2 samples, yet `iloc 0` fails. -/
theorem iloc_fails_when_target_length_zero_witness :
    dsT0.len = 2 ∧ dsT0.iloc 0 = .error .assertionError :=
  ⟨by decide, iloc_fails_when_target_length_zero dsT0 rfl 0⟩

/-- Totality of the access path: for every valid index (and a nonempty
target horizon) `iloc` succeeds, whatever the table's label values are —
no assertion inspects the pre-masking contents. -/
theorem iloc_ok_of_valid (ds : SequenceDfDataSet) (idx : ℤ)
    (h0 : 0 ≤ idx) (h1 : idx < ds.len)
    (htl : 1 ≤ ds.hparams.target_length) :
    ∃ p, ds.iloc idx = Except.ok p := by
  have hlen : idx.toNat + ds.hparams.window_length + ds.hparams.target_length
      + 1 ≤ ds.data.length := by
    simp only [SequenceDfDataSet.len] at h1
    omega
  simp only [SequenceDfDataSet.iloc]
  have hi : idx + ds.hparams.window_length + ds.hparams.target_length
      - ds.hparams.target_length - ds.hparams.window_length = idx := by ring
  rw [hi, if_neg (by omega), if_neg (not_not_intro (by omega))]
  have hk : (idx + ds.hparams.window_length + ds.hparams.target_length).toNat
      = idx.toNat + (ds.hparams.window_length + ds.hparams.target_length) := by
    omega
  have hslen : (pySlice ds.data idx.toNat
      (idx + ds.hparams.window_length + ds.hparams.target_length).toNat).length
      = ds.hparams.window_length + ds.hparams.target_length := by
    rw [length_pySlice, hk]
    omega
  have hdropne : ¬ ((maskFrom ds.hparams.window_length
      (pySlice ds.data idx.toNat
        (idx + ds.hparams.window_length
          + ds.hparams.target_length).toNat)).drop
        ds.hparams.window_length).length = 0 := by
    rw [drop_maskFrom, List.length_map, List.length_drop, hslen]
    omega
  rw [if_neg hdropne, if_pos (labelsZeroFrom_maskFrom _ _)]
  have hmlen : (maskFrom ds.hparams.window_length
      (pySlice ds.data idx.toNat
        (idx + ds.hparams.window_length + ds.hparams.target_length).toNat)).length
      = ds.hparams.window_length + ds.hparams.target_length := by
    rw [length_maskFrom, hslen]
  obtain ⟨r0, xtl, hcons⟩ : ∃ r0 xtl,
      maskFrom ds.hparams.window_length
        (pySlice ds.data idx.toNat
          (idx + ds.hparams.window_length + ds.hparams.target_length).toNat)
        = r0 :: xtl := by
    cases hm : maskFrom ds.hparams.window_length
        (pySlice ds.data idx.toNat
          (idx + ds.hparams.window_length + ds.hparams.target_length).toNat) with
    | nil => rw [hm] at hmlen; simp at hmlen; omega
    | cons a b => exact ⟨a, b, rfl⟩
  rw [hcons]
  exact ⟨_, rfl⟩

/-- Counterexample to C5: in `ds5`, the window of index 0 has a nonzero
label cell (30) at local offset 2 ≥ `window_length` before masking, yet
`iloc 0` does not fail — it succeeds and silently zeroes the cell. The
zero-assertion runs after the masking assignment, so it never inspects
the pre-masking value. -/
theorem iloc_premask_validation_cex :
    (ds5.data[2]?).map Row.labels = some [30] ∧
    ds5.iloc 0 = .ok (x5, y5) := by
  refine ⟨by decide, ?_⟩
  simp [SequenceDfDataSet.iloc, pySlice, maskFrom, maskRow,
    labelsZeroFrom, ds5, x5, y5]

/-- C5 (amended): even when some label-column cell of the source table
at local offset `≥ window_length` within the window of a valid index is
nonzero before masking, `iloc(idx)` succeeds: the assertion checks the
copy after masking (where the cells are always zero), so the violation
is silently repaired rather than reported. -/
theorem iloc_ok_despite_nonzero_premask (ds : SequenceDfDataSet) (idx : ℤ)
    (h0 : 0 ≤ idx) (h1 : idx < ds.len)
    (htl : 1 ≤ ds.hparams.target_length)
    (o : ℕ) (ho : ds.hparams.window_length ≤ o)
    (ho2 : o < ds.hparams.window_length + ds.hparams.target_length)
    (r : Row) (hr : ds.data[idx.toNat + o]? = some r)
    (hnz : ∃ l ∈ r.labels, l ≠ 0) :
    ∃ p, ds.iloc idx = Except.ok p :=
  iloc_ok_of_valid ds idx h0 h1 htl

/-- Witness for C5 (amended) at `ds5`, index 0, offset 2: the pre-mask
cell there is 30 ≠ 0 and `iloc` still succeeds. -/
theorem iloc_ok_despite_nonzero_premask_witness :
    ∃ p, ds5.iloc 0 = Except.ok p :=
  iloc_ok_despite_nonzero_premask ds5 0 (by decide) (by decide) (by decide)
    2 (by decide) (by decide) (Row.mk (2 * 86400) [30] []) (by rfl)
    ⟨30, by decide, by decide⟩

/-- Writing through a reference other than `t` leaves the frame behind
`t` unchanged. -/
theorem readRef_set_ne (s : Store) (r t : ℕ) (v : List Row) (h : t ≠ r) :
    readRef (List.set s r v) t = readRef s t := by
  simp [readRef, List.getD_eq_getElem?_getD, List.getElem?_set_ne (Ne.symm h)]

/-- Allocating a fresh frame leaves every live reference unchanged. -/
theorem readRef_append_lt (s : Store) (v : List Row) (t : ℕ)
    (h : t < List.length s) :
    readRef (List.append s [v]) t = readRef s t := by
  simp [readRef, List.getD_eq_getElem?_getD, List.getElem?_append, h]

/-- C8: `iloc` never mutates the shared source table — after the call,
the frame behind the table's reference is identical to what it was
before; the masking and timestamp-rewriting writes all go through the
reference of the freshly allocated per-sample copy. -/
theorem ilocStore_table_unchanged (hp : Hparams) (s : Store) (t : ℕ)
    (idx : ℤ) (ht : t < List.length s) :
    readRef (ilocStore hp s t idx).1 t = readRef s t := by
  have hne : t ≠ List.length s := Nat.ne_of_lt ht
  simp only [ilocStore, alloc, writeRef]
  split
  · rfl
  split
  · rfl
  split
  · rw [readRef_set_ne _ _ _ _ hne, readRef_append_lt _ _ _ ht]
  split
  · split
    · rw [readRef_set_ne _ _ _ _ hne, readRef_append_lt _ _ _ ht]
    · rw [readRef_set_ne _ _ _ _ hne, readRef_set_ne _ _ _ _ hne,
        readRef_append_lt _ _ _ ht]
  · rw [readRef_set_ne _ _ _ _ hne, readRef_append_lt _ _ _ ht]

/-- Witness for C8 on the concrete 5-row table stored in a one-frame
heap. -/
theorem ilocStore_table_unchanged_witness :
    readRef (ilocStore ds5.hparams [ds5.data] 0 0).1 0
      = readRef [ds5.data] 0 :=
  ilocStore_table_unchanged ds5.hparams [ds5.data] 0 0 (by decide)

/-- Summing a function mapped over a zip equals summing it over the
positions of the shorter list. -/
theorem zip_map_sum {α β : Type} (f : α × β → ℚ) (da : α) (db : β) :
    ∀ (u : List α) (v : List β),
      ((u.zip v).map f).sum
        = ∑ i ∈ Finset.range (min u.length v.length),
            f (u.getD i da, v.getD i db)
  | [], v => by simp
  | a :: u, [] => by simp
  | a :: u, b :: v => by
    have ih := zip_map_sum f da db u v
    simp only [List.zip_cons_cons, List.map_cons, List.sum_cons,
      List.length_cons, Nat.succ_min_succ, Finset.sum_range_succ']
    simp only [List.getD_cons_succ, List.getD_cons_zero]
    rw [← ih]
    ring

/-- Reading a dropped list at position `i` reads the original at
`wl + i`. -/
theorem getD_drop {α : Type} (d : α) (wl i : ℕ) (u : List α) :
    (u.drop wl).getD i d = u.getD (wl + i) d := by
  simp [List.getD_eq_getElem?_getD, List.getElem?_drop]

/-- Per-row horizon form of the squared-error sum: the dropped-and-zipped
sum over a row equals the sum over timesteps `wl ≤ t < T`. -/
theorem row_sq_sum (wl T : ℕ) (u v : List ℚ)
    (hu : u.length = T) (hv : v.length = T) :
    (((u.drop wl).zip (v.drop wl)).map fun q => (q.1 - q.2) ^ 2).sum
      = ∑ t ∈ Finset.Ico wl T, (u.getD t 0 - v.getD t 0) ^ 2 := by
  rw [zip_map_sum (fun q => (q.1 - q.2) ^ 2) 0 0,
    Finset.sum_Ico_eq_sum_range]
  have hlen : min (u.drop wl).length (v.drop wl).length = T - wl := by
    simp [hu, hv]
  rw [hlen]
  refine Finset.sum_congr rfl fun i _ => ?_
  rw [getD_drop, getD_drop]

/-- Reading a mapped batch at a row position commutes with `drop`. -/
theorem getD_map_drop (wl : ℕ) (L : List (List ℚ)) (b : ℕ) :
    (L.map (List.drop wl)).getD b [] = (L.getD b []).drop wl := by
  rw [List.getD_eq_getElem?_getD, List.getD_eq_getElem?_getD,
    List.getElem?_map]
  cases L[b]? <;> simp

/-- A row fetched from a batch whose rows all have length `T` has
length `T`. -/
theorem getD_length_of_forall (T : ℕ) (L : List (List ℚ))
    (hT : ∀ r ∈ L, r.length = T) (b : ℕ) (hb : b < L.length) :
    (L.getD b []).length = T := by
  rw [List.getD_eq_getElem?_getD, List.getElem?_eq_getElem hb]
  exact hT _ (List.getElem_mem hb)

/-- C9: every training and validation step discards the first
`window_length` timesteps of predictions and targets and computes
mean-squared error only over the remaining timesteps: for a
`B × T`-shaped batch the loss is the sum of squared differences over
`wl ≤ t < T` divided by `B * (T - wl)` contributing elements, and the
validation step computes the identical quantity. -/
theorem step_loss_only_after_window (wl B T : ℕ)
    (y_hat y : List (List ℚ))
    (hB : y_hat.length = B) (hB' : y.length = B)
    (hT : ∀ r ∈ y_hat, r.length = T) (hT' : ∀ r ∈ y, r.length = T) :
    LSTM_PL.training_step wl y_hat y
        = (∑ b ∈ Finset.range B, ∑ t ∈ Finset.Ico wl T,
            ((y_hat.getD b []).getD t 0 - (y.getD b []).getD t 0) ^ 2)
          / ((B : ℚ) * ((T - wl : ℕ) : ℚ))
      ∧ LSTM_PL.validation_step wl y_hat y
          = LSTM_PL.training_step wl y_hat y := by
  refine ⟨?_, rfl⟩
  simp only [LSTM_PL.training_step, mse_loss]
  have hAlen : (y_hat.map (List.drop wl)).length = B := by simp [hB]
  have hClen : (y.map (List.drop wl)).length = B := by simp [hB']
  -- the flattened list of squared differences
  have hsum :
      ((((y_hat.map (List.drop wl)).zip (y.map (List.drop wl))).map fun p =>
          (p.1.zip p.2).map fun q => (q.1 - q.2) ^ 2).flatten).sum
        = ∑ b ∈ Finset.range B, ∑ t ∈ Finset.Ico wl T,
            ((y_hat.getD b []).getD t 0 - (y.getD b []).getD t 0) ^ 2 := by
    rw [List.sum_flatten, List.map_map,
      zip_map_sum (List.sum ∘ fun p : List ℚ × List ℚ =>
        (p.1.zip p.2).map fun q => (q.1 - q.2) ^ 2) [] [],
      hAlen, hClen, min_self]
    refine Finset.sum_congr rfl fun b hb => ?_
    have hbB : b < B := Finset.mem_range.mp hb
    simp only [Function.comp_apply, getD_map_drop]
    exact row_sq_sum wl T _ _
      (getD_length_of_forall T y_hat hT b (by omega))
      (getD_length_of_forall T y hT' b (by omega))
  have hlen :
      ((((y_hat.map (List.drop wl)).zip (y.map (List.drop wl))).map fun p =>
          (p.1.zip p.2).map fun q => (q.1 - q.2) ^ 2).flatten).length
        = B * (T - wl) := by
    rw [List.length_flatten, List.map_map]
    have hconst : ∀ p ∈ (y_hat.map (List.drop wl)).zip (y.map (List.drop wl)),
        (List.length ∘ fun p : List ℚ × List ℚ =>
          (p.1.zip p.2).map fun q => (q.1 - q.2) ^ 2) p = T - wl := by
      intro p hp
      obtain ⟨hp1, hp2⟩ := List.of_mem_zip hp
      obtain ⟨r1, hr1, hpe1⟩ := List.mem_map.mp hp1
      obtain ⟨r2, hr2, hpe2⟩ := List.mem_map.mp hp2
      simp only [Function.comp_apply, List.length_map, List.length_zip,
        ← hpe1, ← hpe2, List.length_drop, hT r1 hr1, hT' r2 hr2, min_self]
    rw [List.map_congr_left hconst, List.map_const', List.sum_replicate,
      List.length_zip, hAlen, hClen, min_self, smul_eq_mul, Nat.mul_comm]
  rw [hsum, hlen]
  push_cast
  rfl

/-- Witness for C9: window_length 3 on a 1 × 5 batch — only the 2
timesteps `t = 3, 4` contribute, and the divisor is `1 * (5 - 3)`. -/
theorem step_loss_only_after_window_witness :
    LSTM_PL.training_step 3 [[1, 2, 3, 4, 5]] [[0, 0, 0, 1, 1]]
        = (∑ b ∈ Finset.range 1, ∑ t ∈ Finset.Ico 3 5,
            (([[(1 : ℚ), 2, 3, 4, 5]].getD b []).getD t 0
              - ([[(0 : ℚ), 0, 0, 1, 1]].getD b []).getD t 0) ^ 2)
          / (((1 : ℕ) : ℚ) * (((5 - 3 : ℕ)) : ℚ))
      ∧ LSTM_PL.validation_step 3 [[1, 2, 3, 4, 5]] [[0, 0, 0, 1, 1]]
          = LSTM_PL.training_step 3 [[1, 2, 3, 4, 5]] [[0, 0, 0, 1, 1]] :=
  step_loss_only_after_window 3 1 5 [[1, 2, 3, 4, 5]] [[0, 0, 0, 1, 1]]
    rfl rfl (by simp) (by simp)
